import Mathlib

/-!
Shallow embedding of the `SupplyChain` class of `climada/engine/supplychain.py`.

Matrices are row-major lists of rows over ℚ (an exact stand-in for the numpy
float arrays; the claims under study are about array structure and exact
normalization rules, not rounding).  Out-of-range reads default to 0; on the
well-formed shapes the code works with, every read is in range.  The one place
where genuine IEEE semantics matter (pandas division by a zero total, numpy
`nansum` over NaN entries) is modelled by the dedicated `PFloat` type below.
-/

abbrev Vec := List ℚ
abbrev Mat := List (List ℚ)

/-- Entry read of a vector, defaulting to 0 out of range. -/
def vGet (v : Vec) (i : ℕ) : ℚ := v.getD i 0

/-- Entry read of a row-major matrix, defaulting to 0 out of range. -/
def mGet (m : Mat) (i j : ℕ) : ℚ := (m.getD i []).getD j 0

/-- Shape predicate: `m` has `r` rows, each of length `c`. -/
def isMat (m : Mat) (r c : ℕ) : Prop := m.length = r ∧ ∀ row ∈ m, row.length = c

/-- Embeds `np.zeros(n)`. -/
def zeros_vec (n : ℕ) : Vec := List.replicate n 0

/-- Embeds `np.zeros((r, c))`. -/
def zeros_mat (r c : ℕ) : Mat := List.replicate r (zeros_vec c)

/-- Column-normalized (technical) coefficients: entry `(i, j)` is
`mriot_data[i][j] / total_prod[j]` when `total_prod[j] > 0`, else 0.  This is
the `for col_i, col in enumerate(self.mriot_data.T)` branch of
`calc_indirect_impact` (zero-guard `if self.total_prod[col_i] > 0`). -/
def col_normalize (mriot_data : Mat) (total_prod : Vec) : Mat :=
  mriot_data.map (fun row =>
    List.zipWith (fun x p => if 0 < p then x / p else 0) row total_prod)

/-- Row-normalized (allocation) coefficients: row `i` is
`mriot_data[i] / total_prod[i]` when `total_prod[i] > 0`, else a zero row.
This is the `for row_i, row in enumerate(self.mriot_data)` branch of
`calc_indirect_impact`. -/
def row_normalize (mriot_data : Mat) (total_prod : Vec) : Mat :=
  List.zipWith
    (fun row p => if 0 < p then row.map (fun x => x / p) else row.map (fun _ => 0))
    mriot_data total_prod

/-- Coefficient matrix of `calc_indirect_impact`: column-normalized when
`io_approach in ['leontief', 'eeioa']`, row-normalized otherwise (the `else`
branch, reached by 'ghosh' and by any other string). -/
def coefficients (mriot_data : Mat) (total_prod : Vec) (io_approach : String) : Mat :=
  if io_approach = "leontief" ∨ io_approach = "eeioa" then
    col_normalize mriot_data total_prod
  else
    row_normalize mriot_data total_prod

/-- Embeds `np.identity(n)`. -/
def identity_mat (n : ℕ) : Mat :=
  (List.range n).map (fun i => (List.range n).map (fun j => if i = j then (1 : ℚ) else 0))

/-- Element-wise matrix subtraction. -/
def mat_sub (a b : Mat) : Mat := List.zipWith (List.zipWith (fun x y => x - y)) a b

/-- Element-wise matrix addition. -/
def mat_add (a b : Mat) : Mat := List.zipWith (List.zipWith (fun x y => x + y)) a b

/-- Scalar multiple of a matrix. -/
def mat_scale (c : ℚ) (m : Mat) : Mat := m.map (fun row => row.map (fun x => c * x))

/-- Laplace-expansion determinant of a row-major square matrix (the
determinant underlying `np.linalg.inv`'s singularity test). -/
def detL : Mat → ℚ
  | [] => 1
  | row :: rest =>
      ((List.range row.length).map
        (fun j => (-1 : ℚ) ^ j * row.getD j 0 * detL (rest.map (fun r => r.eraseIdx j)))).sum
termination_by m => m.length
decreasing_by simp [List.length_map]

/-- Minor of a matrix: drop row `i` and column `j`. -/
def minorL (m : Mat) (i j : ℕ) : Mat := (m.eraseIdx i).map (fun r => r.eraseIdx j)

/-- Adjugate (transposed cofactor matrix). -/
def adjugateL (m : Mat) : Mat :=
  (List.range m.length).map (fun i =>
    (List.range m.length).map (fun j => (-1 : ℚ) ^ (i + j) * detL (minorL m j i)))

/-- Errors the `calc_indirect_impact` pipeline can raise:
`np.linalg.LinAlgError` from `np.linalg.inv`, and `KeyError` from the
`io_switch[io_approach]` dictionary lookup. -/
inductive SCError where
  | linAlgError : SCError
  | keyError : String → SCError
deriving DecidableEq

/-- Embeds `np.linalg.inv`: matrix inverse, raising `LinAlgError` when singular. -/
def np_linalg_inv (a : Mat) : Except SCError Mat :=
  if detL a = 0 then Except.error SCError.linAlgError
  else Except.ok (mat_scale (detL a)⁻¹ (adjugateL a))

/-- Embeds `np.nansum(m, axis=0)`: column sums (no NaN exists over ℚ, so the sums are
plain; the NaN-as-zero behaviour of `nansum` is modelled on `PFloat` below). -/
def nansum_axis0 (m : Mat) : Vec :=
  (List.range (m.headD []).length).map (fun j => (m.map (fun row => row.getD j 0)).sum)

/-- Embeds `np.nansum` over an exact-arithmetic list, where no NaN can occur. -/
def nansum_q (l : List ℚ) : ℚ := l.sum

/-- Embeds `_leontief_calc`.  The risk structure is a function from year index to the
`[i][j]` slice matrix `risk_structure[:, :, year]`.  The loop
`for idx, row in enumerate(inverse): risk_structure[:, idx, year_i] = row * degr_demand`
writes slice entry `(i, idx) = inverse[idx][i] * degr_demand[i]`. -/
def leontief_calc (mriot_data : Mat) (total_prod : Vec)
    (direct_intensity : Vec) (inverse : Mat) (risk_structure : ℕ → Mat)
    (year_i : ℕ) : ℕ → Mat :=
  let demand := List.zipWith (fun p s => p - s) total_prod (mriot_data.map List.sum)
  let degr_demand := List.zipWith (fun d q => d * q) direct_intensity demand
  fun y =>
    if y = year_i then
      (List.range mriot_data.length).map (fun i =>
        (List.range mriot_data.length).map (fun j => mGet inverse j i * vGet degr_demand i))
    else risk_structure y

/-- Embeds `_ghosh_calc`.  The loop
`for idx, col in enumerate(inverse.T): risk_structure[:, idx, year_i] = degr_value_added * col`
writes slice entry `(i, idx) = degr_value_added[i] * inverse[i][idx]`. -/
def ghosh_calc (mriot_data : Mat) (total_prod : Vec)
    (direct_intensity : Vec) (inverse : Mat) (risk_structure : ℕ → Mat)
    (year_i : ℕ) : ℕ → Mat :=
  let value_added := List.zipWith (fun p s => p - s) total_prod (nansum_axis0 mriot_data)
  let degr_value_added := List.zipWith (fun d v => max (d * v) 0) direct_intensity value_added
  fun y =>
    if y = year_i then
      (List.range mriot_data.length).map (fun i =>
        (List.range mriot_data.length).map (fun j => vGet degr_value_added i * mGet inverse i j))
    else risk_structure y

/-- Embeds `_eeioa_calc`.  The loop
`for idx, col in enumerate(inverse.T): risk_structure[:, idx, year_i] = (direct_intensity * col) * total_prod[idx]`
writes slice entry `(i, idx) = (direct_intensity[i] * inverse[i][idx]) * total_prod[idx]`. -/
def eeioa_calc (mriot_data : Mat) (total_prod : Vec)
    (direct_intensity : Vec) (inverse : Mat) (risk_structure : ℕ → Mat)
    (year_i : ℕ) : ℕ → Mat :=
  fun y =>
    if y = year_i then
      (List.range mriot_data.length).map (fun i =>
        (List.range mriot_data.length).map (fun j =>
          (vGet direct_intensity i * mGet inverse i j) * vGet total_prod j))
    else risk_structure y

/-- Direct intensity loop of `calc_indirect_impact`: per row,
`impact / production` if `production > 0`, else 0. -/
def direct_intensity (direct_impact_yearly : Vec) (total_prod : Vec) : Vec :=
  List.zipWith
    (fun impact production => if 0 < production then impact / production else 0)
    direct_impact_yearly total_prod

/-- Common signature of the three propagation methods, with `self`'s
`mriot_data` and `total_prod` already applied. -/
abbrev PropCalc := Vec → Mat → (ℕ → Mat) → ℕ → ℕ → Mat

/-- The `io_switch` dictionary of `calc_indirect_impact`. -/
def io_switch (mriot_data : Mat) (total_prod : Vec) : List (String × PropCalc) :=
  [("leontief", leontief_calc mriot_data total_prod),
   ("ghosh", ghosh_calc mriot_data total_prod),
   ("eeioa", eeioa_calc mriot_data total_prod)]

/-- Embeds `np.mean(m, axis=0)`: column sums divided by the number of rows. -/
def mean_axis0 (m : Mat) : Vec :=
  (List.range (m.headD []).length).map
    (fun j => (m.map (fun row => row.getD j 0)).sum / (m.length : ℚ))

/-- The `io_data` bundle plus the indirect-impact results produced by
`calc_indirect_impact`. -/
structure IndirectResult where
  coefficients : Mat
  inverse : Mat
  risk_structure : ℕ → Mat
  indirect_impact : Mat
  indirect_aai_agg : Vec
  io_approach : String

/-- One iteration of the `for year_i, _ in enumerate(self.years)` loop of
`calc_indirect_impact`: the `io_switch[io_approach]` dictionary lookup happens
here, inside the loop body; then the year's risk-structure slice is rebuilt and
the year's indirect-impact row is `np.nansum(risk_structure[:, :, year_i], axis=0)`. -/
def indirect_step (mriot_data : Mat) (total_prod : Vec) (direct_impact : Mat)
    (inverse : Mat) (io_approach : String)
    (st : Mat × (ℕ → Mat)) (year_i : ℕ) : Except SCError (Mat × (ℕ → Mat)) :=
  let direct_impact_yearly := direct_impact.getD year_i []
  let di := direct_intensity direct_impact_yearly total_prod
  match List.lookup io_approach (io_switch mriot_data total_prod) with
  | none => Except.error (SCError.keyError io_approach)
  | some f =>
      let rs := f di inverse st.2 year_i
      let n := mriot_data.length
      let row := (List.range n).map (fun j =>
        nansum_q ((List.range n).map (fun i => mGet (rs year_i) i j)))
      Except.ok (st.1.set year_i row, rs)

/-- The body of one loop iteration of `calc_indirect_impact` once the
`io_switch[io_approach]` lookup has succeeded with method `f`. -/
def indirect_step_ok (mriot_data : Mat) (total_prod : Vec) (direct_impact : Mat)
    (inverse : Mat) (f : PropCalc) (st : Mat × (ℕ → Mat)) (year_i : ℕ) :
    Mat × (ℕ → Mat) :=
  let di := direct_intensity (direct_impact.getD year_i []) total_prod
  let rs := f di inverse st.2 year_i
  let n := mriot_data.length
  let row := (List.range n).map (fun j =>
    nansum_q ((List.range n).map (fun i => mGet (rs year_i) i j)))
  (st.1.set year_i row, rs)

/-- Embeds `calc_indirect_impact`: coefficients from the selected approach, one shared
matrix inversion of `I - coefficients`, then the per-year loop; an exception
raised at any point aborts the computation (Python raise semantics). -/
def calc_indirect_impact (mriot_data : Mat) (total_prod : Vec) (direct_impact : Mat)
    (num_years : ℕ) (io_approach : String) : Except SCError IndirectResult :=
  let coeffs := coefficients mriot_data total_prod io_approach
  match np_linalg_inv (mat_sub (identity_mat mriot_data.length) coeffs) with
  | Except.error e => Except.error e
  | Except.ok inverse =>
    let init : Mat × (ℕ → Mat) :=
      (zeros_mat num_years mriot_data.length,
       fun _ => zeros_mat mriot_data.length mriot_data.length)
    match (List.range num_years).foldlM
        (indirect_step mriot_data total_prod direct_impact inverse io_approach) init with
    | Except.error e => Except.error e
    | Except.ok res =>
      Except.ok
        { coefficients := coeffs, inverse := inverse, risk_structure := res.2,
          indirect_impact := res.1, indirect_aai_agg := mean_axis0 res.1,
          io_approach := io_approach }

/-- Indirect-impact entry of a pipeline outcome (0 on the error branch). -/
def indirect_entry (x : Except SCError IndirectResult) (y j : ℕ) : ℚ :=
  match x with
  | Except.ok r => mGet r.indirect_impact y j
  | Except.error _ => 0

/-- Risk-structure entry of a pipeline outcome (0 on the error branch). -/
def risk_entry (x : Except SCError IndirectResult) (y i j : ℕ) : ℚ :=
  match x with
  | Except.ok r => mGet (r.risk_structure y) i j
  | Except.error _ => 0

/-- The error produced by a pipeline outcome, if any. -/
def error_of (x : Except SCError IndirectResult) : Option SCError :=
  match x with
  | Except.ok _ => none
  | Except.error e => some e

/-- Embeds `calc_total_impact`: element-wise total and its column-wise mean. -/
def calc_total_impact (direct_impact indirect_impact : Mat) : Mat × Vec :=
  let total_impact := mat_add indirect_impact direct_impact
  (total_impact, mean_axis0 total_impact)

/-- ISO3 resolution of `calc_sector_direct_impact`: keep the resolved code when
it occurs in `countries_iso3`, else fall back to the pseudo-country `ROW`. -/
def resolve_cntry_iso3 (countries_iso3 : List String) (alpha3 : String) : String :=
  if alpha3 ∈ countries_iso3 then alpha3 else "ROW"

/-- Embeds `v[pos] += b` with numpy fancy-indexing semantics: positions are gathered
from the original `v`, added to `b` and scattered back (a repeated position is
written last-wins from the original base, not accumulated). -/
def vec_scatter_add (v : Vec) (pos : List ℕ) (b : Vec) : Vec :=
  (List.zip pos b).foldl (fun acc pb => acc.set pb.1 (v.getD pb.1 0 + pb.2)) v

/-- Embeds `m[:, pos] += block` row by row. -/
def mat_scatter_add (m : Mat) (pos : List ℕ) (block : Mat) : Mat :=
  List.zipWith (fun row brow => vec_scatter_add row pos brow) m block

/-- Per-country direct-impact block of `calc_sector_direct_impact`:
subsector production is the row sum of `mriot_data` at each selected row, and
the block entry `(y, k)` is `imp_year_set[y] * subsec_cntry_prod[k]`. -/
def cntry_direct_impact (mriot_data : Mat) (imp_year_set : Vec)
    (subsec_cntry_pos : List ℕ) : Mat :=
  let subsec_cntry_prod := subsec_cntry_pos.map (fun p => (mriot_data.getD p []).sum)
  imp_year_set.map (fun r => subsec_cntry_prod.map (fun prod => r * prod))

/-- The per-country loop of `calc_sector_direct_impact`.  The hazard-impact
black box (`Impact.calc` + `calc_impact_year_set`, exposure normalization) is
abstracted as `imp_year_sets : region id → year-indexed loss series`, and the
`countries_by_numeric` lookup as `numeric_to_alpha3`, both external
collaborators of this module.  Contributions are accumulated with `+=` into
the shared zero-initialized matrix. -/
def calc_sector_direct_impact (mriot_data : Mat) (countries_iso3 : List String)
    (num_sectors num_years : ℕ) (cntry_pos_start : String → ℕ)
    (region_ids : List ℕ) (numeric_to_alpha3 : ℕ → String) (imp_year_sets : ℕ → Vec)
    (selected_subsec : List ℕ) : Mat × Vec :=
  let direct_impact := region_ids.foldl (fun direct_impact cntry =>
      let cntry_iso3 := resolve_cntry_iso3 countries_iso3 (numeric_to_alpha3 cntry)
      let subsec_cntry_pos := selected_subsec.map (fun s => s + cntry_pos_start cntry_iso3)
      let block := cntry_direct_impact mriot_data (imp_year_sets cntry) subsec_cntry_pos
      mat_scatter_add direct_impact subsec_cntry_pos block)
    (zeros_mat num_years (countries_iso3.length * num_sectors))
  (direct_impact, mean_axis0 direct_impact)

/-- IEEE-style float values: finite rationals, the two infinities, and NaN. -/
inductive PFloat where
  | num : ℚ → PFloat
  | posInf : PFloat
  | negInf : PFloat
  | nan : PFloat
deriving DecidableEq

/-- IEEE float addition on `PFloat`. -/
def PFloat.add : PFloat → PFloat → PFloat
  | PFloat.nan, _ => PFloat.nan
  | _, PFloat.nan => PFloat.nan
  | PFloat.posInf, PFloat.negInf => PFloat.nan
  | PFloat.negInf, PFloat.posInf => PFloat.nan
  | PFloat.posInf, _ => PFloat.posInf
  | _, PFloat.posInf => PFloat.posInf
  | PFloat.negInf, _ => PFloat.negInf
  | _, PFloat.negInf => PFloat.negInf
  | PFloat.num a, PFloat.num b => PFloat.num (a + b)

/-- IEEE-style division of finite values: a zero divisor yields ±∞ or NaN
instead of raising (numpy/pandas float semantics). -/
def fdiv (a b : ℚ) : PFloat :=
  if b ≠ 0 then PFloat.num (a / b)
  else if 0 < a then PFloat.posInf
  else if a < 0 then PFloat.negInf
  else PFloat.nan

/-- Embeds `np.nansum`: every NaN entry is treated as zero in the sum. -/
def np_nansum (l : List PFloat) : PFloat :=
  (l.map (fun x => if x = PFloat.nan then PFloat.num 0 else x)).foldl PFloat.add (PFloat.num 0)

/-- Per-country exposure normalization `cntyr_exp.gdf['value'] /= total_ctry_value`
of `calc_sector_direct_impact`.  Pandas float division never raises, so the
result is always `Except.ok`; a zero total produces NaN / ±∞ entries under
IEEE division, not an exception. -/
def normalize_exposure (values : List ℚ) : Except String (List PFloat) :=
  let total_ctry_value := values.sum
  Except.ok (values.map (fun v => fdiv v total_ctry_value))

/-- Modelled from the spec (section 4.2, step 1): a reading of the
normalization under which a zero total exposure value fails with
`DivideByZeroError`.  Kept for comparison with the source-faithful
`normalize_exposure` above. -/
def normalize_exposure_spec (values : List ℚ) : Except String (List PFloat) :=
  let total_ctry_value := values.sum
  if total_ctry_value = 0 then Except.error "DivideByZeroError"
  else Except.ok (values.map (fun v => fdiv v total_ctry_value))

/-- Embeds `cntry_pos` of `read_wiod`: the country at position `i` occupies rows
`range(len(sectors) * i, len(sectors) * (i + 1))`. -/
def cntry_pos_range (num_sectors i : ℕ) : Finset ℕ :=
  Finset.Ico (num_sectors * i) (num_sectors * (i + 1))

/-! ## Helper lemmas on list reads -/

theorem getD_map_of_lt {α β : Type} (f : α → β) (l : List α) (i : ℕ) (da : α) (db : β)
    (h : i < l.length) : (l.map f).getD i db = f (l.getD i da) := by
  induction l generalizing i with
  | nil => simp at h
  | cons a t ih =>
    cases i with
    | zero => simp
    | succ k => simpa using ih k (by simpa using h)

theorem getD_zipWith_of_lt {α β γ : Type} (f : α → β → γ) (a : List α) (b : List β)
    (i : ℕ) (da : α) (db : β) (dc : γ) (ha : i < a.length) (hb : i < b.length) :
    (List.zipWith f a b).getD i dc = f (a.getD i da) (b.getD i db) := by
  induction a generalizing b i with
  | nil => simp at ha
  | cons x t ih =>
    cases b with
    | nil => simp at hb
    | cons y u =>
      cases i with
      | zero => simp
      | succ k => simpa using ih u k (by simpa using ha) (by simpa using hb)

theorem getD_range_of_lt (n i : ℕ) (d : ℕ) (h : i < n) : (List.range n).getD i d = i := by
  rw [List.getD_eq_getElem _ _ (by simpa using h)]
  simp

theorem getD_range_map_of_lt {α : Type} (f : ℕ → α) (n i : ℕ) (d : α) (h : i < n) :
    ((List.range n).map f).getD i d = f i := by
  rw [getD_map_of_lt f _ i 0 d (by simpa using h), getD_range_of_lt n i 0 h]

theorem getD_mem_of_lt {α : Type} (l : List α) (i : ℕ) (d : α) (h : i < l.length) :
    l.getD i d ∈ l := by
  rw [List.getD_eq_getElem _ _ h]
  exact List.getElem_mem h

/-! ## Claim theorems -/

/-- Claim C1: in `calc_indirect_impact`, for the 'leontief' and 'eeioa'
approaches the coefficient matrix is column-normalized (column `j` of the flow
matrix divided by `total_prod[j]`), for the 'ghosh' approach it is
row-normalized (row `i` divided by `total_prod[i]`), and in both orientations
every column/row whose `total_prod` entry is ≤ 0 is exactly zero (the `if`
right-hand sides below collapse to 0 exactly when `0 < total_prod[·]` fails,
i.e. when the entry is ≤ 0). -/
theorem C1_coefficient_normalization (mriot_data : Mat) (total_prod : Vec) (n : ℕ)
    (hm : isMat mriot_data n n) (hp : total_prod.length = n) :
    (∀ ap : String, ap = "leontief" ∨ ap = "eeioa" → ∀ i j : ℕ, i < n → j < n →
        mGet (coefficients mriot_data total_prod ap) i j =
          if 0 < vGet total_prod j then mGet mriot_data i j / vGet total_prod j else 0)
      ∧
    (∀ i j : ℕ, i < n → j < n →
        mGet (coefficients mriot_data total_prod "ghosh") i j =
          if 0 < vGet total_prod i then mGet mriot_data i j / vGet total_prod i else 0) := by
  obtain ⟨hlen, hrow⟩ := hm
  constructor
  · intro ap hap i j hi hj
    have hcoef : coefficients mriot_data total_prod ap = col_normalize mriot_data total_prod := by
      rcases hap with h | h <;> simp [coefficients, h]
    have hrowlen : (mriot_data.getD i []).length = n :=
      hrow _ (getD_mem_of_lt _ _ _ (hlen ▸ hi))
    rw [hcoef]
    unfold col_normalize mGet vGet
    rw [getD_map_of_lt _ _ i [] [] (hlen ▸ hi),
      getD_zipWith_of_lt _ _ _ j 0 0 0 (hrowlen ▸ hj) (hp ▸ hj)]
  · intro i j hi hj
    have hcoef : coefficients mriot_data total_prod "ghosh"
        = row_normalize mriot_data total_prod := by
      simp [coefficients]
    have hrowlen : (mriot_data.getD i []).length = n :=
      hrow _ (getD_mem_of_lt _ _ _ (hlen ▸ hi))
    rw [hcoef]
    unfold row_normalize mGet vGet
    rw [getD_zipWith_of_lt _ _ _ i [] 0 [] (hlen ▸ hi) (hp ▸ hi)]
    by_cases h0 : 0 < total_prod.getD i 0
    · rw [if_pos h0, if_pos h0, getD_map_of_lt _ _ j 0 0 (hrowlen ▸ hj)]
    · rw [if_neg h0, if_neg h0, getD_map_of_lt _ _ j 0 0 (hrowlen ▸ hj)]

theorem C1_coefficient_normalization_witness :
    isMat [[(10 : ℚ), 5], [5, 10]] 2 2 ∧
    (mGet (coefficients [[(10 : ℚ), 5], [5, 10]] [20, -1] "leontief") 0 1 =
        if 0 < vGet [20, -1] 1 then mGet [[(10 : ℚ), 5], [5, 10]] 0 1 / vGet [20, -1] 1 else 0) ∧
    (mGet (coefficients [[(10 : ℚ), 5], [5, 10]] [20, -1] "ghosh") 1 0 =
        if 0 < vGet [20, -1] 1 then mGet [[(10 : ℚ), 5], [5, 10]] 1 0 / vGet [20, -1] 1 else 0) :=
  ⟨by simp [isMat],
   (C1_coefficient_normalization [[(10 : ℚ), 5], [5, 10]] [20, -1] 2
      ⟨rfl, by simp [isMat]⟩ rfl).1 "leontief" (Or.inl rfl) 0 1 (by decide) (by decide),
   (C1_coefficient_normalization [[(10 : ℚ), 5], [5, 10]] [20, -1] 2
      ⟨rfl, by simp [isMat]⟩ rfl).2 1 0 (by decide) (by decide)⟩

/-- Claim C2: under the Leontief approach, for every year, the propagation step
computes `demand[row] = total_prod[row] - row_sum(mriot_data[row, :])`,
`degraded_demand = direct_intensity * demand`, and sets
`risk_structure[:, r, year] = inverse_row[r] * degraded_demand` for every row
`r` of the inverse matrix. -/
theorem C2_leontief_propagation (mriot_data : Mat) (total_prod : Vec) (di : Vec)
    (inverse : Mat) (rs : ℕ → Mat) (year_i : ℕ) (n : ℕ)
    (hm : isMat mriot_data n n) (hp : total_prod.length = n) (hd : di.length = n)
    (_hinv : isMat inverse n n) (i r : ℕ) (hi : i < n) (hr : r < n) :
    mGet ((leontief_calc mriot_data total_prod di inverse rs year_i) year_i) i r =
      mGet inverse r i * (vGet di i * (vGet total_prod i - (mriot_data.getD i []).sum)) := by
  obtain ⟨hlen, _⟩ := hm
  have hdem : (List.zipWith (fun p s => p - s) total_prod (mriot_data.map List.sum)).length
      = n := by simp [hp, hlen]
  unfold leontief_calc mGet vGet
  simp only [eq_self_iff_true, if_true]
  rw [getD_range_map_of_lt _ _ i [] (hlen ▸ hi), getD_range_map_of_lt _ _ r 0 (hlen ▸ hr)]
  rw [getD_zipWith_of_lt _ _ _ i 0 0 0 (hd ▸ hi) (hdem ▸ hi)]
  rw [getD_zipWith_of_lt _ _ _ i 0 0 0 (hp ▸ hi) (by simp [hlen, hi])]
  rw [getD_map_of_lt _ _ i [] 0 (hlen ▸ hi)]

theorem C2_leontief_propagation_witness :
    isMat [[(10 : ℚ), 5], [5, 10]] 2 2 ∧
    mGet ((leontief_calc [[(10 : ℚ), 5], [5, 10]] [20, 20] [1, 0] [[1, 2], [3, 4]]
        (fun _ => []) 0) 0) 0 1 =
      mGet [[(1 : ℚ), 2], [3, 4]] 1 0 *
        (vGet [1, 0] 0 * (vGet [20, 20] 0 - ([[(10 : ℚ), 5], [5, 10]].getD 0 []).sum)) :=
  ⟨by simp [isMat],
   C2_leontief_propagation [[(10 : ℚ), 5], [5, 10]] [20, 20] [1, 0] [[1, 2], [3, 4]]
     (fun _ => []) 0 2 ⟨rfl, by simp [isMat]⟩ rfl rfl ⟨rfl, by simp [isMat]⟩
     0 1 (by decide) (by decide)⟩

/-- Claim C3: under the Ghosh approach, for every year, the propagation step
computes `value_added[row] = total_prod[row] - column_sum(mriot_data[:, row])`,
clamps `degraded_value_added = max(direct_intensity * value_added, 0)` at zero
(so a negative value added never contributes negatively even when the direct
intensity is positive), and sets
`risk_structure[:, c, year] = degraded_value_added * inverse_column[c]` for
every column `c` of the inverse. -/
theorem C3_ghosh_propagation (mriot_data : Mat) (total_prod : Vec) (di : Vec)
    (inverse : Mat) (rs : ℕ → Mat) (year_i : ℕ) (n : ℕ)
    (hm : isMat mriot_data n n) (hp : total_prod.length = n) (hd : di.length = n)
    (_hinv : isMat inverse n n) (i c : ℕ) (hi : i < n) (hc : c < n) :
    mGet ((ghosh_calc mriot_data total_prod di inverse rs year_i) year_i) i c =
      max (vGet di i *
          (vGet total_prod i - (mriot_data.map (fun row => row.getD i 0)).sum)) 0 *
        mGet inverse i c := by
  obtain ⟨hlen, hrow⟩ := hm
  have hheadD : (mriot_data.headD []).length = n := by
    cases mriot_data with
    | nil => simp at hlen ⊢; omega
    | cons h t => exact hrow h (by simp)
  have hax : (nansum_axis0 mriot_data).length = n := by
    unfold nansum_axis0; simpa using hheadD
  have hva : (List.zipWith (fun p s => p - s) total_prod (nansum_axis0 mriot_data)).length
      = n := by simp [hp, hax]
  unfold ghosh_calc mGet vGet
  simp only [eq_self_iff_true, if_true]
  rw [getD_range_map_of_lt _ _ i [] (hlen ▸ hi), getD_range_map_of_lt _ _ c 0 (hlen ▸ hc)]
  rw [getD_zipWith_of_lt _ _ _ i 0 0 0 (hd ▸ hi) (hva ▸ hi)]
  rw [getD_zipWith_of_lt _ _ _ i 0 0 0 (hp ▸ hi) (hax ▸ hi)]
  unfold nansum_axis0
  rw [getD_range_map_of_lt _ _ i 0 (by rw [hheadD]; exact hi)]

theorem C3_ghosh_propagation_witness :
    isMat [[(10 : ℚ), 5], [5, 30]] 2 2 ∧
    mGet ((ghosh_calc [[(10 : ℚ), 5], [5, 30]] [20, 20] [1, 1] [[1, 2], [3, 4]]
        (fun _ => []) 3) 3) 1 0 =
      max (vGet [1, 1] 1 *
          (vGet [20, 20] 1 - ([[(10 : ℚ), 5], [5, 30]].map (fun row => row.getD 1 0)).sum)) 0 *
        mGet [[(1 : ℚ), 2], [3, 4]] 1 0 :=
  ⟨by simp [isMat],
   C3_ghosh_propagation [[(10 : ℚ), 5], [5, 30]] [20, 20] [1, 1] [[1, 2], [3, 4]]
     (fun _ => []) 3 2 ⟨rfl, by simp [isMat]⟩ rfl rfl ⟨rfl, by simp [isMat]⟩
     1 0 (by decide) (by decide)⟩

/-- Claim C4: in `calc_indirect_impact`, for every year and every row, the
direct intensity equals `direct_impact[year, row] / total_prod[row]` when
`total_prod[row] > 0` and equals 0 otherwise, regardless of the direct-impact
value at that row. -/
theorem C4_direct_intensity_rule (direct_impact : Mat) (total_prod : Vec)
    (year_i idx n : ℕ) (hp : total_prod.length = n)
    (hd : (direct_impact.getD year_i []).length = n) (hidx : idx < n) :
    vGet (direct_intensity (direct_impact.getD year_i []) total_prod) idx =
      if 0 < vGet total_prod idx
      then mGet direct_impact year_i idx / vGet total_prod idx
      else 0 := by
  unfold direct_intensity vGet mGet
  rw [getD_zipWith_of_lt _ _ _ idx 0 0 0 (hd ▸ hidx) (hp ▸ hidx)]

theorem C4_direct_intensity_rule_witness :
    ([(2 : ℚ), 0].length = 2) ∧
    vGet (direct_intensity ([[(5 : ℚ), 7]].getD 0 []) [2, 0]) 1 =
      if 0 < vGet [(2 : ℚ), 0] 1
      then mGet [[(5 : ℚ), 7]] 0 1 / vGet [(2 : ℚ), 0] 1
      else 0 :=
  ⟨rfl, C4_direct_intensity_rule [[(5 : ℚ), 7]] [2, 0] 0 1 2 rfl rfl (by decide)⟩

/-- Sum of the `j`-th entries of the rows of `m`, as a `Finset.range` sum. -/
theorem sum_map_getD_eq_sum_range (m : Mat) (j : ℕ) :
    (m.map (fun row => row.getD j 0)).sum
      = ∑ t ∈ Finset.range m.length, (m.getD t []).getD j 0 := by
  induction m with
  | nil => simp
  | cons h t ih =>
    rw [List.map_cons, List.sum_cons, List.length_cons, Finset.sum_range_succ', ih]
    simp [add_comm]

/-- Claim C6: for direct- and indirect-impact matrices of the same
`years × rows` shape, `calc_total_impact` sets the total impact to their
element-wise sum, and each average-annual aggregate (the `mean(axis=0)` shared
by `direct_aai_agg`, `indirect_aai_agg` and `total_aai_agg`) equals the
arithmetic mean of the corresponding matrix over the year axis. -/
theorem C6_total_impact_and_aai (direct_impact indirect_impact : Mat) (ys n : ℕ)
    (hdm : isMat direct_impact ys n) (him : isMat indirect_impact ys n) :
    (∀ t j : ℕ, t < ys → j < n →
        mGet (calc_total_impact direct_impact indirect_impact).1 t j =
          mGet direct_impact t j + mGet indirect_impact t j)
    ∧ (∀ (m : Mat) (r c : ℕ), isMat m r c → 0 < r → ∀ j : ℕ, j < c →
        vGet (mean_axis0 m) j = (∑ t ∈ Finset.range r, mGet m t j) / (r : ℚ))
    ∧ (calc_total_impact direct_impact indirect_impact).2 =
        mean_axis0 (calc_total_impact direct_impact indirect_impact).1 := by
  refine ⟨?_, ?_, rfl⟩
  · intro t j ht hj
    obtain ⟨hdl, hdr⟩ := hdm
    obtain ⟨hil, hir⟩ := him
    have hdrow : (direct_impact.getD t []).length = n :=
      hdr _ (getD_mem_of_lt _ _ _ (hdl ▸ ht))
    have hirow : (indirect_impact.getD t []).length = n :=
      hir _ (getD_mem_of_lt _ _ _ (hil ▸ ht))
    unfold calc_total_impact mat_add mGet
    rw [getD_zipWith_of_lt _ _ _ t [] [] [] (hil ▸ ht) (hdl ▸ ht),
      getD_zipWith_of_lt _ _ _ j 0 0 0 (hirow ▸ hj) (hdrow ▸ hj)]
    exact add_comm _ _
  · intro m r c hm hr j hj
    obtain ⟨hlen, hrow⟩ := hm
    have hheadD : (m.headD []).length = c := by
      cases m with
      | nil => simp at hlen; omega
      | cons h t => exact hrow h (by simp)
    unfold mean_axis0 vGet
    rw [getD_range_map_of_lt _ _ j 0 (by rw [hheadD]; exact hj),
      sum_map_getD_eq_sum_range, hlen]
    rfl

theorem C6_total_impact_and_aai_witness :
    isMat [[(1 : ℚ), 2]] 1 2 ∧
    mGet (calc_total_impact [[(1 : ℚ), 2]] [[3, 4]]).1 0 1 =
      mGet [[(1 : ℚ), 2]] 0 1 + mGet [[(3 : ℚ), 4]] 0 1 ∧
    vGet (mean_axis0 [[(1 : ℚ), 2]]) 0 =
      (∑ t ∈ Finset.range 1, mGet [[(1 : ℚ), 2]] t 0) / (1 : ℚ) :=
  ⟨by simp [isMat],
   (C6_total_impact_and_aai [[(1 : ℚ), 2]] [[3, 4]] 1 2
      ⟨rfl, by simp [isMat]⟩ ⟨rfl, by simp [isMat]⟩).1 0 1 (by decide) (by decide),
   (C6_total_impact_and_aai [[(1 : ℚ), 2]] [[3, 4]] 1 2
      ⟨rfl, by simp [isMat]⟩ ⟨rfl, by simp [isMat]⟩).2.1 [[(1 : ℚ), 2]] 1 2
     ⟨rfl, by simp [isMat]⟩ (by decide) 0 (by decide)⟩

/-- Claim C9: for every valid MRIOT (country `i` at position `i`,
`num_sectors` sectors), the country-to-row-range index maps country position
`i` to the contiguous range `[num_sectors*i, num_sectors*(i+1))`, so the
ranges partition `[0, rows)` exactly with no gaps or overlaps, in country
order. -/
theorem C9_cntry_pos_partition (num_sectors n : ℕ) (hS : 0 < num_sectors) :
    ((Finset.range n).biUnion (cntry_pos_range num_sectors)
        = Finset.range (num_sectors * n))
    ∧ (∀ i j : ℕ, i < n → j < n → i ≠ j →
        Disjoint (cntry_pos_range num_sectors i) (cntry_pos_range num_sectors j))
    ∧ (∀ i j : ℕ, i < j →
        ∀ a ∈ cntry_pos_range num_sectors i, ∀ b ∈ cntry_pos_range num_sectors j,
          a < b) := by
  refine ⟨?_, ?_, ?_⟩
  · ext k
    simp only [Finset.mem_biUnion, Finset.mem_range, cntry_pos_range, Finset.mem_Ico]
    constructor
    · rintro ⟨i, hi, h1, h2⟩
      have hle : num_sectors * (i + 1) ≤ num_sectors * n :=
        Nat.mul_le_mul_left _ hi
      omega
    · intro hk
      refine ⟨k / num_sectors, ?_, ?_, ?_⟩
      · exact (Nat.div_lt_iff_lt_mul hS).mpr (by rw [Nat.mul_comm]; omega)
      · have := Nat.div_add_mod k num_sectors
        have hmul : num_sectors * (k / num_sectors + 1)
            = num_sectors * (k / num_sectors) + num_sectors := by ring
        omega
      · have h1 := Nat.div_add_mod k num_sectors
        have h2 := Nat.mod_lt k hS
        have hmul : num_sectors * (k / num_sectors + 1)
            = num_sectors * (k / num_sectors) + num_sectors := by ring
        omega
  · intro i j hi hj hne
    rw [Finset.disjoint_left]
    intro a ha hb
    simp only [cntry_pos_range, Finset.mem_Ico] at ha hb
    rcases Nat.lt_or_ge i j with h | h
    · have : num_sectors * (i + 1) ≤ num_sectors * j := Nat.mul_le_mul_left _ h
      omega
    · have hj2 : j < i := by omega
      have : num_sectors * (j + 1) ≤ num_sectors * i := Nat.mul_le_mul_left _ hj2
      omega
  · intro i j hij a ha b hb
    simp only [cntry_pos_range, Finset.mem_Ico] at ha hb
    have : num_sectors * (i + 1) ≤ num_sectors * j := Nat.mul_le_mul_left _ hij
    omega

theorem C9_cntry_pos_partition_witness :
    (0 < 2) ∧
    ((Finset.range 3).biUnion (cntry_pos_range 2) = Finset.range 6) ∧
    Disjoint (cntry_pos_range 2 0) (cntry_pos_range 2 1) ∧
    (∀ a ∈ cntry_pos_range 2 0, ∀ b ∈ cntry_pos_range 2 1, a < b) :=
  ⟨by decide,
   by have h := (C9_cntry_pos_partition 2 3 (by decide)).1; simpa using h,
   (C9_cntry_pos_partition 2 3 (by decide)).2.1 0 1 (by decide) (by decide) (by decide),
   (C9_cntry_pos_partition 2 3 (by decide)).2.2 0 1 (by decide)⟩

/-! ## Helpers for the `calc_indirect_impact` loop -/

theorem getD_set_ne {α : Type} (w : List α) (i j : ℕ) (x : α) (d : α) (h : i ≠ j) :
    (w.set i x).getD j d = w.getD j d := by
  induction w generalizing i j with
  | nil => simp
  | cons a t ih =>
    cases i with
    | zero =>
      cases j with
      | zero => omega
      | succ k => simp
    | succ m =>
      cases j with
      | zero => simp
      | succ k => simpa using ih m k (by omega)

theorem getD_set_self {α : Type} (w : List α) (i : ℕ) (x : α) (d : α)
    (h : i < w.length) : (w.set i x).getD i d = x := by
  induction w generalizing i with
  | nil => simp at h
  | cons a t ih =>
    cases i with
    | zero => simp
    | succ m => simpa using ih m (by simpa using h)

theorem sum_list_range_eq_finset_sum (g : ℕ → ℚ) (n : ℕ) :
    ((List.range n).map g).sum = ∑ i ∈ Finset.range n, g i := by
  induction n with
  | zero => simp
  | succ m ih => rw [List.range_succ, List.map_append, List.sum_append,
      Finset.sum_range_succ, ih]; simp

theorem io_switch_lookup_leontief (m : Mat) (tp : Vec) :
    List.lookup "leontief" (io_switch m tp) = some (leontief_calc m tp) := by
  simp [io_switch, List.lookup]

theorem io_switch_lookup_ghosh (m : Mat) (tp : Vec) :
    List.lookup "ghosh" (io_switch m tp) = some (ghosh_calc m tp) := by
  simp [io_switch, List.lookup]

theorem io_switch_lookup_eeioa (m : Mat) (tp : Vec) :
    List.lookup "eeioa" (io_switch m tp) = some (eeioa_calc m tp) := by
  simp [io_switch, List.lookup]

theorem io_switch_lookup_none (m : Mat) (tp : Vec) (ap : String)
    (h1 : ap ≠ "leontief") (h2 : ap ≠ "ghosh") (h3 : ap ≠ "eeioa") :
    List.lookup ap (io_switch m tp) = none := by
  have b1 : (ap == "leontief") = false := beq_eq_false_iff_ne.mpr h1
  have b2 : (ap == "ghosh") = false := beq_eq_false_iff_ne.mpr h2
  have b3 : (ap == "eeioa") = false := beq_eq_false_iff_ne.mpr h3
  simp [io_switch, List.lookup, b1, b2, b3]

theorem indirect_step_of_lookup (m : Mat) (tp : Vec) (dimp : Mat) (inv : Mat)
    (ap : String) (f : PropCalc) (h : List.lookup ap (io_switch m tp) = some f)
    (st : Mat × (ℕ → Mat)) (y : ℕ) :
    indirect_step m tp dimp inv ap st y
      = Except.ok (indirect_step_ok m tp dimp inv f st y) := by
  unfold indirect_step indirect_step_ok
  rw [h]

theorem foldlM_indirect_step_none (m : Mat) (tp : Vec) (dimp : Mat) (inv : Mat)
    (ap : String) (h : List.lookup ap (io_switch m tp) = none)
    (y : ℕ) (ys : List ℕ) (st : Mat × (ℕ → Mat)) :
    (y :: ys).foldlM (indirect_step m tp dimp inv ap) st
      = Except.error (SCError.keyError ap) := by
  rw [List.foldlM_cons]
  unfold indirect_step
  rw [h]
  rfl

theorem foldlM_indirect_step_some (m : Mat) (tp : Vec) (dimp : Mat) (inv : Mat)
    (ap : String) (f : PropCalc) (h : List.lookup ap (io_switch m tp) = some f)
    (ys : List ℕ) (st : Mat × (ℕ → Mat)) :
    ys.foldlM (indirect_step m tp dimp inv ap) st
      = Except.ok (ys.foldl (indirect_step_ok m tp dimp inv f) st) := by
  induction ys generalizing st with
  | nil => rfl
  | cons y t ih =>
    rw [List.foldlM_cons, indirect_step_of_lookup m tp dimp inv ap f h st y]
    exact ih _

theorem indirect_step_ok_fst (m : Mat) (tp : Vec) (dimp : Mat) (inv : Mat)
    (f : PropCalc) (st : Mat × (ℕ → Mat)) (y : ℕ) :
    (indirect_step_ok m tp dimp inv f st y).1
      = st.1.set y ((List.range m.length).map (fun j =>
          nansum_q ((List.range m.length).map (fun i =>
            mGet ((f (direct_intensity (dimp.getD y []) tp) inv st.2 y) y) i j)))) := rfl

theorem indirect_step_ok_snd (m : Mat) (tp : Vec) (dimp : Mat) (inv : Mat)
    (f : PropCalc) (st : Mat × (ℕ → Mat)) (y : ℕ) :
    (indirect_step_ok m tp dimp inv f st y).2
      = f (direct_intensity (dimp.getD y []) tp) inv st.2 y := rfl

theorem leontief_calc_frame (m : Mat) (tp di : Vec) (inv : Mat) (rs : ℕ → Mat)
    (yI y : ℕ) (h : y ≠ yI) : leontief_calc m tp di inv rs yI y = rs y := by
  simp only [leontief_calc]
  rw [if_neg h]

theorem ghosh_calc_frame (m : Mat) (tp di : Vec) (inv : Mat) (rs : ℕ → Mat)
    (yI y : ℕ) (h : y ≠ yI) : ghosh_calc m tp di inv rs yI y = rs y := by
  simp only [ghosh_calc]
  rw [if_neg h]

theorem eeioa_calc_frame (m : Mat) (tp di : Vec) (inv : Mat) (rs : ℕ → Mat)
    (yI y : ℕ) (h : y ≠ yI) : eeioa_calc m tp di inv rs yI y = rs y := by
  simp only [eeioa_calc]
  rw [if_neg h]

theorem foldl_step_ok_preserve (m : Mat) (tp : Vec) (dimp : Mat) (inv : Mat)
    (f : PropCalc)
    (hfr : ∀ di inverse rs yI y, y ≠ yI → f di inverse rs yI y = rs y)
    (ys : List ℕ) (st : Mat × (ℕ → Mat)) (z : ℕ) (hz : z ∉ ys) :
    ((ys.foldl (indirect_step_ok m tp dimp inv f) st).1.getD z [] = st.1.getD z [])
    ∧ ((ys.foldl (indirect_step_ok m tp dimp inv f) st).2 z = st.2 z)
    ∧ (ys.foldl (indirect_step_ok m tp dimp inv f) st).1.length = st.1.length := by
  induction ys generalizing st with
  | nil => exact ⟨rfl, rfl, rfl⟩
  | cons y t ih =>
    have hzy : z ≠ y := by
      intro h
      exact hz (h ▸ List.mem_cons_self y t)
    have hzt : z ∉ t := fun h => hz (List.mem_cons_of_mem y h)
    rw [List.foldl_cons]
    obtain ⟨ha, hb, hc⟩ := ih (indirect_step_ok m tp dimp inv f st y) hzt
    refine ⟨?_, ?_, ?_⟩
    · rw [ha, indirect_step_ok_fst]
      exact getD_set_ne _ y z _ [] (Ne.symm hzy)
    · rw [hb, indirect_step_ok_snd]
      exact hfr _ _ _ _ _ hzy
    · rw [hc, indirect_step_ok_fst]
      exact List.length_set st.1 y _

theorem foldl_step_ok_rows (m : Mat) (tp : Vec) (dimp : Mat) (inv : Mat)
    (f : PropCalc)
    (hfr : ∀ di inverse rs yI y, y ≠ yI → f di inverse rs yI y = rs y)
    (ys : List ℕ) (hnd : ys.Nodup) (st : Mat × (ℕ → Mat))
    (hb : ∀ y ∈ ys, y < st.1.length) :
    ∀ y ∈ ys,
      (ys.foldl (indirect_step_ok m tp dimp inv f) st).1.getD y []
        = (List.range m.length).map (fun j =>
            nansum_q ((List.range m.length).map (fun i =>
              mGet ((ys.foldl (indirect_step_ok m tp dimp inv f) st).2 y) i j))) := by
  induction ys generalizing st with
  | nil => intro y h; simp at h
  | cons y0 t ih =>
    intro y hy
    have hnd0 : y0 ∉ t := (List.nodup_cons.mp hnd).1
    have hndt : t.Nodup := (List.nodup_cons.mp hnd).2
    rw [List.foldl_cons]
    rcases List.mem_cons.mp hy with rfl | hyt
    · obtain ⟨ha, hb2, _⟩ := foldl_step_ok_preserve m tp dimp inv f hfr t
        (indirect_step_ok m tp dimp inv f st y) y hnd0
      rw [ha, hb2, indirect_step_ok_fst, indirect_step_ok_snd]
      rw [getD_set_self _ y _ [] (hb y (List.mem_cons_self y t))]
    · apply ih hndt (indirect_step_ok m tp dimp inv f st y0) ?_ y hyt
      intro z hz
      rw [indirect_step_ok_fst]
      rw [List.length_set]
      exact hb z (List.mem_cons_of_mem y0 hz)

theorem pfloat_add_zero_right (s : PFloat) : PFloat.add s (PFloat.num 0) = s := by
  cases s <;> simp [PFloat.add]

theorem np_nansum_append_nan (l1 l2 : List PFloat) :
    np_nansum (l1 ++ PFloat.nan :: l2) = np_nansum (l1 ++ l2) := by
  unfold np_nansum
  rw [List.map_append, List.map_append, List.map_cons]
  rw [List.foldl_append, List.foldl_append, List.foldl_cons]
  rw [if_pos rfl, pfloat_add_zero_right]

/-- Claim C5: for every year, the indirect-impact vector equals the sum of
that year's risk-structure slice over its first axis (all source rows), with
any not-a-number entry treated as zero in the sum (over ℚ no NaN can arise, so
the year rows are plain first-axis sums; the NaN-as-zero reading of the
`np.nansum` step is the second conjunct, on the IEEE model). -/
theorem C5_indirect_impact_slice_sum (mriot_data : Mat) (total_prod : Vec)
    (direct_impact : Mat) (num_years : ℕ) (ap : String)
    (hap : ap = "leontief" ∨ ap = "ghosh" ∨ ap = "eeioa")
    (hdet : detL (mat_sub (identity_mat mriot_data.length)
        (coefficients mriot_data total_prod ap)) ≠ 0)
    (y j : ℕ) (hy : y < num_years) (hj : j < mriot_data.length) :
    (indirect_entry (calc_indirect_impact mriot_data total_prod direct_impact num_years ap) y j
        = ∑ i ∈ Finset.range mriot_data.length,
            risk_entry (calc_indirect_impact mriot_data total_prod direct_impact num_years ap) y i j)
    ∧ (∀ l1 l2 : List PFloat, np_nansum (l1 ++ PFloat.nan :: l2) = np_nansum (l1 ++ l2)) := by
  obtain ⟨f, hlk, hfr⟩ : ∃ f : PropCalc,
      List.lookup ap (io_switch mriot_data total_prod) = some f
        ∧ ∀ di inverse rs yI y2, y2 ≠ yI → f di inverse rs yI y2 = rs y2 := by
    rcases hap with rfl | rfl | rfl
    · exact ⟨_, io_switch_lookup_leontief _ _,
        fun di inverse rs yI y2 h => leontief_calc_frame _ _ _ _ _ _ _ h⟩
    · exact ⟨_, io_switch_lookup_ghosh _ _,
        fun di inverse rs yI y2 h => ghosh_calc_frame _ _ _ _ _ _ _ h⟩
    · exact ⟨_, io_switch_lookup_eeioa _ _,
        fun di inverse rs yI y2 h => eeioa_calc_frame _ _ _ _ _ _ _ h⟩
  have hinv : np_linalg_inv (mat_sub (identity_mat mriot_data.length)
      (coefficients mriot_data total_prod ap))
      = Except.ok (mat_scale (detL (mat_sub (identity_mat mriot_data.length)
          (coefficients mriot_data total_prod ap)))⁻¹
          (adjugateL (mat_sub (identity_mat mriot_data.length)
            (coefficients mriot_data total_prod ap)))) := by
    unfold np_linalg_inv
    rw [if_neg hdet]
  have hcalc : calc_indirect_impact mriot_data total_prod direct_impact num_years ap
      = Except.ok
        { coefficients := coefficients mriot_data total_prod ap,
          inverse := mat_scale (detL (mat_sub (identity_mat mriot_data.length)
              (coefficients mriot_data total_prod ap)))⁻¹
              (adjugateL (mat_sub (identity_mat mriot_data.length)
                (coefficients mriot_data total_prod ap))),
          risk_structure := ((List.range num_years).foldl
              (indirect_step_ok mriot_data total_prod direct_impact
                (mat_scale (detL (mat_sub (identity_mat mriot_data.length)
                  (coefficients mriot_data total_prod ap)))⁻¹
                  (adjugateL (mat_sub (identity_mat mriot_data.length)
                    (coefficients mriot_data total_prod ap)))) f)
              (zeros_mat num_years mriot_data.length,
               fun _ => zeros_mat mriot_data.length mriot_data.length)).2,
          indirect_impact := ((List.range num_years).foldl
              (indirect_step_ok mriot_data total_prod direct_impact
                (mat_scale (detL (mat_sub (identity_mat mriot_data.length)
                  (coefficients mriot_data total_prod ap)))⁻¹
                  (adjugateL (mat_sub (identity_mat mriot_data.length)
                    (coefficients mriot_data total_prod ap)))) f)
              (zeros_mat num_years mriot_data.length,
               fun _ => zeros_mat mriot_data.length mriot_data.length)).1,
          indirect_aai_agg := mean_axis0 (((List.range num_years).foldl
              (indirect_step_ok mriot_data total_prod direct_impact
                (mat_scale (detL (mat_sub (identity_mat mriot_data.length)
                  (coefficients mriot_data total_prod ap)))⁻¹
                  (adjugateL (mat_sub (identity_mat mriot_data.length)
                    (coefficients mriot_data total_prod ap)))) f)
              (zeros_mat num_years mriot_data.length,
               fun _ => zeros_mat mriot_data.length mriot_data.length)).1),
          io_approach := ap } := by
    have hfold := fun inv =>
      foldlM_indirect_step_some mriot_data total_prod direct_impact inv ap f hlk
    simp only [calc_indirect_impact, hinv, hfold]
  refine ⟨?_, np_nansum_append_nan⟩
  rw [hcalc]
  simp only [indirect_entry, risk_entry]
  have hrow := foldl_step_ok_rows mriot_data total_prod direct_impact
    (mat_scale (detL (mat_sub (identity_mat mriot_data.length)
      (coefficients mriot_data total_prod ap)))⁻¹
      (adjugateL (mat_sub (identity_mat mriot_data.length)
        (coefficients mriot_data total_prod ap)))) f hfr
    (List.range num_years) (List.nodup_range num_years)
    (zeros_mat num_years mriot_data.length,
     fun _ => zeros_mat mriot_data.length mriot_data.length)
    (by
      intro z hz
      simp only [zeros_mat, List.length_replicate]
      exact List.mem_range.mp hz)
    y (List.mem_range.mpr hy)
  show mGet _ y j = _
  unfold mGet
  rw [hrow, getD_range_map_of_lt _ _ j 0 hj]
  unfold nansum_q
  rw [sum_list_range_eq_finset_sum]
  rfl

theorem C5_indirect_impact_slice_sum_witness :
    (("ghosh" : String) = "leontief" ∨ ("ghosh" : String) = "ghosh"
        ∨ ("ghosh" : String) = "eeioa") ∧
    detL (mat_sub (identity_mat (List.length [[(0 : ℚ)]]))
        (coefficients [[(0 : ℚ)]] [1] "ghosh")) ≠ 0 ∧
    (indirect_entry (calc_indirect_impact [[(0 : ℚ)]] [1] [[5]] 1 "ghosh") 0 0
        = ∑ i ∈ Finset.range (List.length [[(0 : ℚ)]]),
            risk_entry (calc_indirect_impact [[(0 : ℚ)]] [1] [[5]] 1 "ghosh") 0 i 0) ∧
    (∀ l1 l2 : List PFloat, np_nansum (l1 ++ PFloat.nan :: l2) = np_nansum (l1 ++ l2)) := by
  have hg : coefficients [[(0 : ℚ)]] [1] "ghosh" = row_normalize [[(0 : ℚ)]] [1] := by
    unfold coefficients
    rw [if_neg]
    rintro (h | h) <;> exact absurd h (by decide)
  have hdet : detL (mat_sub (identity_mat (List.length [[(0 : ℚ)]]))
      (coefficients [[(0 : ℚ)]] [1] "ghosh")) ≠ 0 := by
    rw [hg]
    norm_num [row_normalize, mat_sub, identity_mat, detL, List.range_succ]
  refine ⟨Or.inr (Or.inl rfl), hdet, ?_, ?_⟩
  · exact (C5_indirect_impact_slice_sum [[(0 : ℚ)]] [1] [[5]] 1 "ghosh"
      (Or.inr (Or.inl rfl)) hdet 0 0 (by decide) (by decide)).1
  · exact (C5_indirect_impact_slice_sum [[(0 : ℚ)]] [1] [[5]] 1 "ghosh"
      (Or.inr (Or.inl rfl)) hdet 0 0 (by decide) (by decide)).2

/-- Claim C10: `calc_indirect_impact` does not validate `io_approach` up
front: for every string other than 'leontief' and 'eeioa' (including
unrecognized ones) the coefficient matrix is computed row-normalized in the
Ghosh orientation, the inverse is computed (a singular matrix aborts with
`LinAlgError` regardless of the approach string), and an unrecognized string
raises a key-lookup error only inside the per-year loop, so with zero years it
never fails. -/
theorem C10_no_upfront_validation (mriot_data : Mat) (total_prod : Vec)
    (direct_impact : Mat) (num_years : ℕ) (ap : String)
    (h1 : ap ≠ "leontief") (h2 : ap ≠ "eeioa") :
    (coefficients mriot_data total_prod ap = row_normalize mriot_data total_prod)
    ∧ (detL (mat_sub (identity_mat mriot_data.length)
          (coefficients mriot_data total_prod ap)) = 0 →
        error_of (calc_indirect_impact mriot_data total_prod direct_impact num_years ap)
          = some SCError.linAlgError)
    ∧ (detL (mat_sub (identity_mat mriot_data.length)
          (coefficients mriot_data total_prod ap)) ≠ 0 → ap ≠ "ghosh" →
        0 < num_years →
        error_of (calc_indirect_impact mriot_data total_prod direct_impact num_years ap)
          = some (SCError.keyError ap))
    ∧ (detL (mat_sub (identity_mat mriot_data.length)
          (coefficients mriot_data total_prod ap)) ≠ 0 →
        error_of (calc_indirect_impact mriot_data total_prod direct_impact 0 ap)
          = none) := by
  refine ⟨?_, ?_, ?_, ?_⟩
  · unfold coefficients
    rw [if_neg]
    rintro (h | h)
    · exact h1 h
    · exact h2 h
  · intro hdet0
    have hinv : np_linalg_inv (mat_sub (identity_mat mriot_data.length)
        (coefficients mriot_data total_prod ap)) = Except.error SCError.linAlgError := by
      unfold np_linalg_inv
      rw [if_pos hdet0]
    simp only [calc_indirect_impact, hinv]
    rfl
  · intro hdet hg hny
    have hinv : np_linalg_inv (mat_sub (identity_mat mriot_data.length)
        (coefficients mriot_data total_prod ap))
        = Except.ok (mat_scale (detL (mat_sub (identity_mat mriot_data.length)
            (coefficients mriot_data total_prod ap)))⁻¹
            (adjugateL (mat_sub (identity_mat mriot_data.length)
              (coefficients mriot_data total_prod ap)))) := by
      unfold np_linalg_inv
      rw [if_neg hdet]
    have hlk := io_switch_lookup_none mriot_data total_prod ap h1 hg h2
    obtain ⟨k, rfl⟩ : ∃ k, num_years = k + 1 := ⟨num_years - 1, by omega⟩
    have hfold := fun inv st =>
      foldlM_indirect_step_none mriot_data total_prod direct_impact inv ap hlk
        0 ((List.range k).map (fun x => x + 1)) st
    simp only [calc_indirect_impact, hinv, List.range_succ_eq_map, hfold]
    rfl
  · intro hdet
    have hinv : np_linalg_inv (mat_sub (identity_mat mriot_data.length)
        (coefficients mriot_data total_prod ap))
        = Except.ok (mat_scale (detL (mat_sub (identity_mat mriot_data.length)
            (coefficients mriot_data total_prod ap)))⁻¹
            (adjugateL (mat_sub (identity_mat mriot_data.length)
              (coefficients mriot_data total_prod ap)))) := by
      unfold np_linalg_inv
      rw [if_neg hdet]
    simp only [calc_indirect_impact, hinv, List.range_zero, List.foldlM_nil]
    rfl

theorem C10_no_upfront_validation_witness :
    (("foo" : String) ≠ "leontief") ∧ (("foo" : String) ≠ "eeioa") ∧
    (coefficients [[(0 : ℚ)]] [1] "foo" = row_normalize [[(0 : ℚ)]] [1]) ∧
    (error_of (calc_indirect_impact [[(0 : ℚ)]] [1] [[5]] 1 "foo")
        = some (SCError.keyError "foo")) ∧
    (error_of (calc_indirect_impact [[(0 : ℚ)]] [1] [[5]] 0 "foo") = none) := by
  have h1 : ("foo" : String) ≠ "leontief" := by decide
  have h2 : ("foo" : String) ≠ "eeioa" := by decide
  have hdet : detL (mat_sub (identity_mat (List.length [[(0 : ℚ)]]))
      (coefficients [[(0 : ℚ)]] [1] "foo")) ≠ 0 := by
    rw [(C10_no_upfront_validation [[(0 : ℚ)]] [1] [[5]] 1 "foo" h1 h2).1]
    norm_num [row_normalize, mat_sub, identity_mat, detL, List.range_succ]
  refine ⟨h1, h2,
    (C10_no_upfront_validation [[(0 : ℚ)]] [1] [[5]] 1 "foo" h1 h2).1,
    (C10_no_upfront_validation [[(0 : ℚ)]] [1] [[5]] 1 "foo" h1 h2).2.2.1 hdet
      (by decide) (by decide),
    (C10_no_upfront_validation [[(0 : ℚ)]] [1] [[5]] 0 "foo" h1 h2).2.2.2 hdet⟩

/-- Claim C8, counterexample: the claim asserts that a zero total exposure
value makes the per-country normalization fail with `DivideByZeroError`.  On
the zero-total input `[1, -1]` the source-faithful normalization (pandas /
numpy float division) does not fail: it returns the value list `[+inf, -inf]`,
while only the spec-worded variant produces the claimed error. -/
theorem C8_divide_by_zero_counterexample :
    ([(1 : ℚ), -1].sum = 0) ∧
    normalize_exposure [(1 : ℚ), -1] = Except.ok [PFloat.posInf, PFloat.negInf] ∧
    (∀ e : String, normalize_exposure [(1 : ℚ), -1] ≠ Except.error e) ∧
    normalize_exposure_spec [(1 : ℚ), -1] = Except.error "DivideByZeroError" := by
  have hsum : [(1 : ℚ), -1].sum = 0 := by norm_num
  have hok : normalize_exposure [(1 : ℚ), -1] = Except.ok [PFloat.posInf, PFloat.negInf] := by
    simp only [normalize_exposure, hsum]
    norm_num [fdiv]
  refine ⟨hsum, hok, ?_, ?_⟩
  · intro e h
    rw [hok] at h
    exact Except.noConfusion h
  · unfold normalize_exposure_spec
    rw [hsum]
    rfl

/-- Claim C8, amended: when the total exposure value of a country's exposure
subset is zero, the normalization `value /= total` does not raise; under IEEE
float semantics each entry becomes +∞ (positive value), -∞ (negative value),
or NaN (zero value). -/
theorem C8_zero_total_ieee (values : List ℚ) (h : values.sum = 0) :
    normalize_exposure values =
      Except.ok (values.map (fun v =>
        if 0 < v then PFloat.posInf else if v < 0 then PFloat.negInf
        else PFloat.nan)) := by
  simp only [normalize_exposure, h]
  refine congrArg Except.ok (List.map_congr_left ?_)
  intro v _
  simp [fdiv]

theorem C8_zero_total_ieee_witness :
    ([(2 : ℚ), -2, 0].sum = 0) ∧
    normalize_exposure [(2 : ℚ), -2, 0] =
      Except.ok ([(2 : ℚ), -2, 0].map (fun v =>
        if 0 < v then PFloat.posInf else if v < 0 then PFloat.negInf
        else PFloat.nan)) :=
  ⟨by norm_num, C8_zero_total_ieee [(2 : ℚ), -2, 0] (by norm_num)⟩

/-! ## Helpers for `calc_sector_direct_impact` -/

theorem foldl_set_add_length (v : Vec) (l : List (ℕ × ℚ)) (w : Vec) :
    (l.foldl (fun acc pb => acc.set pb.1 (v.getD pb.1 0 + pb.2)) w).length
      = w.length := by
  induction l generalizing w with
  | nil => rfl
  | cons q t ih =>
    rw [List.foldl_cons, ih]
    exact List.length_set w q.1 _

theorem foldl_set_add_getD_not_mem (v : Vec) (l : List (ℕ × ℚ)) :
    ∀ (w : Vec) (p : ℕ), (∀ q ∈ l, q.1 ≠ p) →
      (l.foldl (fun acc pb => acc.set pb.1 (v.getD pb.1 0 + pb.2)) w).getD p 0
        = w.getD p 0 := by
  induction l with
  | nil => intro w p _; rfl
  | cons q t ih =>
    intro w p hp
    rw [List.foldl_cons, ih _ p (fun r hr => hp r (List.mem_cons_of_mem q hr))]
    exact getD_set_ne w q.1 p _ 0 (hp q (List.mem_cons_self q t))

theorem foldl_set_add_getD_mem (v : Vec) (l : List (ℕ × ℚ)) :
    ∀ (w : Vec) (p : ℕ) (x : ℚ), (p, x) ∈ l → (l.map Prod.fst).Nodup →
      p < w.length →
      (l.foldl (fun acc pb => acc.set pb.1 (v.getD pb.1 0 + pb.2)) w).getD p 0
        = v.getD p 0 + x := by
  induction l with
  | nil => intro w p x hmem _ _; simp at hmem
  | cons q t ih =>
    intro w p x hmem hnd hlen
    rw [List.map_cons, List.nodup_cons] at hnd
    rw [List.foldl_cons]
    rcases List.mem_cons.mp hmem with heq | hmem2
    · have hq1 : q.1 = p := by rw [← heq]
      have hq2 : q.2 = x := by rw [← heq]
      have hnot : ∀ r ∈ t, r.1 ≠ p := by
        intro r hr hrp
        exact hnd.1 (hq1 ▸ hrp ▸ List.mem_map_of_mem Prod.fst hr)
      rw [foldl_set_add_getD_not_mem v t _ p hnot, hq1, hq2]
      exact getD_set_self w p _ 0 hlen
    · have hq : q.1 ≠ p := by
        intro h
        apply hnd.1
        rw [h]
        exact List.mem_map_of_mem Prod.fst hmem2
      apply ih _ p x hmem2 hnd.2
      rw [List.length_set]
      exact hlen

theorem vec_scatter_add_length (v : Vec) (pos : List ℕ) (b : Vec) :
    (vec_scatter_add v pos b).length = v.length :=
  foldl_set_add_length v (List.zip pos b) v

theorem vec_scatter_add_getD (v : Vec) (pos : List ℕ) (b : Vec) (k : ℕ)
    (hk : k < pos.length) (hlen : b.length = pos.length) (hnd : pos.Nodup)
    (hb : pos.getD k 0 < v.length) :
    (vec_scatter_add v pos b).getD (pos.getD k 0) 0
      = v.getD (pos.getD k 0) 0 + b.getD k 0 := by
  unfold vec_scatter_add
  apply foldl_set_add_getD_mem v (List.zip pos b) v (pos.getD k 0) (b.getD k 0) ?_ ?_ hb
  · have hkb : k < b.length := by omega
    have hzip : k < (List.zip pos b).length := by
      rw [List.length_zip]
      omega
    have hget : (List.zip pos b).getD k (0, 0) = (pos.getD k 0, b.getD k 0) := by
      rw [List.getD_eq_getElem _ _ hzip, List.getD_eq_getElem _ _ hk,
        List.getD_eq_getElem _ _ hkb]
      exact List.getElem_zip
    exact hget ▸ getD_mem_of_lt _ k (0, 0) hzip
  · rw [List.map_fst_zip pos b (by omega)]
    exact hnd

theorem mat_scatter_add_getD_row (m : Mat) (pos : List ℕ) (block : Mat) (y : ℕ)
    (hy : y < m.length) (hyb : y < block.length) :
    (mat_scatter_add m pos block).getD y []
      = vec_scatter_add (m.getD y []) pos (block.getD y []) := by
  unfold mat_scatter_add
  exact getD_zipWith_of_lt _ _ _ y [] [] [] hy hyb

theorem getD_replicate_of_lt {α : Type} (x d : α) (r y : ℕ) (hy : y < r) :
    (List.replicate r x).getD y d = x := by
  rw [List.getD_eq_getElem _ _ (by simpa using hy)]
  simp

theorem zeros_vec_getD (c p : ℕ) : (zeros_vec c).getD p 0 = 0 := by
  unfold zeros_vec
  rcases Nat.lt_or_ge p c with h | h
  · exact getD_replicate_of_lt 0 0 c p h
  · rw [List.getD_eq_default]
    simpa using h

theorem cntry_direct_impact_length (m : Mat) (imp : Vec) (pos : List ℕ) :
    (cntry_direct_impact m imp pos).length = imp.length := by
  unfold cntry_direct_impact
  exact List.length_map imp _

theorem cntry_direct_impact_row (m : Mat) (imp : Vec) (pos : List ℕ) (y : ℕ)
    (hy : y < imp.length) :
    (cntry_direct_impact m imp pos).getD y []
      = (pos.map (fun p => (m.getD p []).sum)).map
          (fun prod => imp.getD y 0 * prod) := by
  unfold cntry_direct_impact
  exact getD_map_of_lt _ imp y 0 [] hy

/-- Claim C7: in `calc_sector_direct_impact`, every country whose resolved
ISO3 code is absent from the MRIOT country list falls back to the
pseudo-country 'ROW', and contributions are accumulated by addition into the
shared direct-impact matrix, so two such unmapped countries' contributions to
the same ROW rows sum rather than overwrite. -/
theorem C7_row_fallback_and_accumulation (mriot_data : Mat)
    (countries_iso3 : List String) (num_sectors num_years : ℕ)
    (cntry_pos_start : String → ℕ) (c1 c2 : ℕ)
    (numeric_to_alpha3 : ℕ → String) (imp_year_sets : ℕ → Vec)
    (selected_subsec : List ℕ)
    (h1 : numeric_to_alpha3 c1 ∉ countries_iso3)
    (h2 : numeric_to_alpha3 c2 ∉ countries_iso3)
    (hnd : (selected_subsec.map (fun s => s + cntry_pos_start "ROW")).Nodup)
    (himp1 : (imp_year_sets c1).length = num_years)
    (himp2 : (imp_year_sets c2).length = num_years)
    (hbound : ∀ s ∈ selected_subsec,
        s + cntry_pos_start "ROW" < countries_iso3.length * num_sectors) :
    (∀ c : ℕ, numeric_to_alpha3 c ∉ countries_iso3 →
        resolve_cntry_iso3 countries_iso3 (numeric_to_alpha3 c) = "ROW")
    ∧ (∀ y k : ℕ, y < num_years → k < selected_subsec.length →
        ((calc_sector_direct_impact mriot_data countries_iso3 num_sectors num_years
            cntry_pos_start [c1, c2] numeric_to_alpha3 imp_year_sets
            selected_subsec).1.getD y []).getD
          ((selected_subsec.map (fun s => s + cntry_pos_start "ROW")).getD k 0) 0
        = mGet (cntry_direct_impact mriot_data (imp_year_sets c1)
              (selected_subsec.map (fun s => s + cntry_pos_start "ROW"))) y k
          + mGet (cntry_direct_impact mriot_data (imp_year_sets c2)
              (selected_subsec.map (fun s => s + cntry_pos_start "ROW"))) y k) := by
  have hres : ∀ c : ℕ, numeric_to_alpha3 c ∉ countries_iso3 →
      resolve_cntry_iso3 countries_iso3 (numeric_to_alpha3 c) = "ROW" := by
    intro c hc
    unfold resolve_cntry_iso3
    rw [if_neg hc]
  refine ⟨hres, ?_⟩
  intro y k hy hk
  have hposlen : (selected_subsec.map (fun s => s + cntry_pos_start "ROW")).length
      = selected_subsec.length := List.length_map _ _
  have hk2 : k < (selected_subsec.map (fun s => s + cntry_pos_start "ROW")).length := by
    rw [hposlen]; exact hk
  have hb1len : (cntry_direct_impact mriot_data (imp_year_sets c1)
      (selected_subsec.map (fun s => s + cntry_pos_start "ROW"))).length = num_years := by
    rw [cntry_direct_impact_length, himp1]
  have hb2len : (cntry_direct_impact mriot_data (imp_year_sets c2)
      (selected_subsec.map (fun s => s + cntry_pos_start "ROW"))).length = num_years := by
    rw [cntry_direct_impact_length, himp2]
  have hzlen : (zeros_mat num_years (countries_iso3.length * num_sectors)).length
      = num_years := by
    unfold zeros_mat
    exact List.length_replicate _ _
  have hm1len : (mat_scatter_add
      (zeros_mat num_years (countries_iso3.length * num_sectors))
      (selected_subsec.map (fun s => s + cntry_pos_start "ROW"))
      (cntry_direct_impact mriot_data (imp_year_sets c1)
        (selected_subsec.map (fun s => s + cntry_pos_start "ROW")))).length
      = num_years := by
    unfold mat_scatter_add
    rw [List.length_zipWith, hzlen, hb1len, Nat.min_self]
  have hzrow : (zeros_mat num_years (countries_iso3.length * num_sectors)).getD y []
      = zeros_vec (countries_iso3.length * num_sectors) := by
    unfold zeros_mat
    exact getD_replicate_of_lt _ [] _ y hy
  have hb1row : (cntry_direct_impact mriot_data (imp_year_sets c1)
      (selected_subsec.map (fun s => s + cntry_pos_start "ROW"))).getD y []
      = ((selected_subsec.map (fun s => s + cntry_pos_start "ROW")).map
          (fun p => (mriot_data.getD p []).sum)).map
          (fun prod => (imp_year_sets c1).getD y 0 * prod) :=
    cntry_direct_impact_row _ _ _ y (himp1 ▸ hy)
  have hb2row : (cntry_direct_impact mriot_data (imp_year_sets c2)
      (selected_subsec.map (fun s => s + cntry_pos_start "ROW"))).getD y []
      = ((selected_subsec.map (fun s => s + cntry_pos_start "ROW")).map
          (fun p => (mriot_data.getD p []).sum)).map
          (fun prod => (imp_year_sets c2).getD y 0 * prod) :=
    cntry_direct_impact_row _ _ _ y (himp2 ▸ hy)
  have hb1rowlen : ((cntry_direct_impact mriot_data (imp_year_sets c1)
      (selected_subsec.map (fun s => s + cntry_pos_start "ROW"))).getD y []).length
      = (selected_subsec.map (fun s => s + cntry_pos_start "ROW")).length := by
    rw [hb1row, List.length_map, List.length_map]
  have hb2rowlen : ((cntry_direct_impact mriot_data (imp_year_sets c2)
      (selected_subsec.map (fun s => s + cntry_pos_start "ROW"))).getD y []).length
      = (selected_subsec.map (fun s => s + cntry_pos_start "ROW")).length := by
    rw [hb2row, List.length_map, List.length_map]
  have hposk : (selected_subsec.map (fun s => s + cntry_pos_start "ROW")).getD k 0
      = selected_subsec.getD k 0 + cntry_pos_start "ROW" :=
    getD_map_of_lt _ _ k 0 0 hk
  have hpW : (selected_subsec.map (fun s => s + cntry_pos_start "ROW")).getD k 0
      < countries_iso3.length * num_sectors := by
    rw [hposk]
    exact hbound _ (getD_mem_of_lt _ k 0 hk)
  have hm1row : (mat_scatter_add
      (zeros_mat num_years (countries_iso3.length * num_sectors))
      (selected_subsec.map (fun s => s + cntry_pos_start "ROW"))
      (cntry_direct_impact mriot_data (imp_year_sets c1)
        (selected_subsec.map (fun s => s + cntry_pos_start "ROW")))).getD y []
      = vec_scatter_add (zeros_vec (countries_iso3.length * num_sectors))
          (selected_subsec.map (fun s => s + cntry_pos_start "ROW"))
          ((cntry_direct_impact mriot_data (imp_year_sets c1)
            (selected_subsec.map (fun s => s + cntry_pos_start "ROW"))).getD y []) := by
    rw [mat_scatter_add_getD_row _ _ _ y (by rw [hzlen]; exact hy)
      (by rw [hb1len]; exact hy), hzrow]
  have hm1rowlen : ((mat_scatter_add
      (zeros_mat num_years (countries_iso3.length * num_sectors))
      (selected_subsec.map (fun s => s + cntry_pos_start "ROW"))
      (cntry_direct_impact mriot_data (imp_year_sets c1)
        (selected_subsec.map (fun s => s + cntry_pos_start "ROW")))).getD y []).length
      = countries_iso3.length * num_sectors := by
    rw [hm1row, vec_scatter_add_length]
    unfold zeros_vec
    exact List.length_replicate _ _
  simp only [calc_sector_direct_impact, List.foldl_cons, List.foldl_nil,
    hres c1 h1, hres c2 h2]
  rw [mat_scatter_add_getD_row _ _ _ y (by rw [hm1len]; exact hy)
    (by rw [hb2len]; exact hy)]
  rw [vec_scatter_add_getD _ _ _ k hk2 hb2rowlen hnd
    (by rw [hm1rowlen]; exact hpW)]
  rw [hm1row]
  rw [vec_scatter_add_getD _ _ _ k hk2 hb1rowlen hnd
    (by rw [zeros_vec, List.length_replicate]; exact hpW)]
  rw [zeros_vec_getD, zero_add]
  rfl

theorem C7_row_fallback_and_accumulation_witness :
    resolve_cntry_iso3 ["AAA", "ROW"] "ZZZ" = "ROW" ∧
    ((calc_sector_direct_impact
        [[(1 : ℚ), 1, 1, 1], [2, 0, 0, 0], [3, 0, 0, 0], [4, 0, 0, 0]]
        ["AAA", "ROW"] 2 1 (fun s => if s = "ROW" then 2 else 0) [7, 8]
        (fun _ => "ZZZ") (fun c => if c = 7 then [1] else [2])
        [0, 1]).1.getD 0 []).getD
      (([0, 1].map (fun s => s + (if ("ROW" : String) = "ROW" then 2 else 0))).getD 0 0) 0
    = mGet (cntry_direct_impact
          [[(1 : ℚ), 1, 1, 1], [2, 0, 0, 0], [3, 0, 0, 0], [4, 0, 0, 0]]
          (if (7 : ℕ) = 7 then [1] else [2])
          ([0, 1].map (fun s => s + (if ("ROW" : String) = "ROW" then 2 else 0)))) 0 0
      + mGet (cntry_direct_impact
          [[(1 : ℚ), 1, 1, 1], [2, 0, 0, 0], [3, 0, 0, 0], [4, 0, 0, 0]]
          (if (8 : ℕ) = 7 then [1] else [2])
          ([0, 1].map (fun s => s + (if ("ROW" : String) = "ROW" then 2 else 0)))) 0 0 :=
  ⟨(C7_row_fallback_and_accumulation
      [[(1 : ℚ), 1, 1, 1], [2, 0, 0, 0], [3, 0, 0, 0], [4, 0, 0, 0]]
      ["AAA", "ROW"] 2 1 (fun s => if s = "ROW" then 2 else 0) 7 8
      (fun _ => "ZZZ") (fun c => if c = 7 then [1] else [2]) [0, 1]
      (by decide) (by decide) (by decide) (by decide) (by decide) (by decide)).1
        7 (by decide),
   (C7_row_fallback_and_accumulation
      [[(1 : ℚ), 1, 1, 1], [2, 0, 0, 0], [3, 0, 0, 0], [4, 0, 0, 0]]
      ["AAA", "ROW"] 2 1 (fun s => if s = "ROW" then 2 else 0) 7 8
      (fun _ => "ZZZ") (fun c => if c = 7 then [1] else [2]) [0, 1]
      (by decide) (by decide) (by decide) (by decide) (by decide) (by decide)).2
        0 0 (by decide) (by decide)⟩
